import Mathlib

/-!
Verification development for the SubZap transaction-extraction and ingest
pipeline (files `main.py`, `pdf_parser.py`, `agent_tools.py`).

The Python code is shallowly embedded: strings are `List Char`, fallible
calls are `Except`, the LLM / web-search / PDF collaborators are explicit
function or value parameters, and the PostgreSQL table is a `List Row`
whose `INSERT ... ON CONFLICT (date, raw_description, amount) DO NOTHING`
semantics is modelled by `insertRow`.
-/

namespace Subzap

/-! ### Python string primitives -/

/-- Characters treated as whitespace by Python `str.strip()` (ASCII subset). -/
def isPyWs (c : Char) : Bool :=
  c == ' ' || c == '\t' || c == '\n' || c == '\r' || c == '\x0b' || c == '\x0c'

/-- Python `s.strip()`: drop leading and trailing whitespace. -/
def pyStrip (s : List Char) : List Char :=
  ((s.dropWhile isPyWs).reverse.dropWhile isPyWs).reverse

/-- `leadsWith pat s` holds when `pat` is an initial segment of `s`. -/
def leadsWith : List Char → List Char → Bool
  | [], _ => true
  | _ :: _, [] => false
  | p :: ps, c :: cs => p == c && leadsWith ps cs

/-- `containsSub pat s`: does `pat` occur contiguously anywhere in `s`? -/
def containsSub (pat : List Char) : List Char → Bool
  | [] => leadsWith pat []
  | c :: cs => leadsWith pat (c :: cs) || containsSub pat cs

/-- Recursion core of `pyReplace`: the fuel dominates the input length
(each step consumes at least one character), so with fuel `s.length` the
fuel never runs out before the input does. -/
def pyReplaceFuel (pat rep : List Char) : Nat → List Char → List Char
  | 0, s => s
  | _ + 1, [] => []
  | f + 1, c :: cs =>
    if pat ≠ [] ∧ leadsWith pat (c :: cs) = true then
      rep ++ pyReplaceFuel pat rep f (List.drop (pat.length - 1) cs)
    else
      c :: pyReplaceFuel pat rep f cs

/-- Python `s.replace(pat, rep)`: replace non-overlapping occurrences of
`pat`, scanning left to right.  (The source only calls it with non-empty
literal patterns.) -/
def pyReplace (pat rep s : List Char) : List Char :=
  pyReplaceFuel pat rep s.length s

/-- Python `s.find(c)`: index of the first occurrence, `none` for `-1`. -/
def firstIdxOf (c : Char) : List Char → Option Nat
  | [] => none
  | x :: xs => if x == c then some 0 else (firstIdxOf c xs).map (· + 1)

/-- Python `s.rfind(c)`: index of the last occurrence, `none` for `-1`. -/
def lastIdxOf (c : Char) : List Char → Option Nat
  | [] => none
  | x :: xs =>
    match lastIdxOf c xs with
    | some i => some (i + 1)
    | none => if x == c then some 0 else none

/-- Python slicing `s[a:b]` for non-negative bounds. -/
def pySlice (a b : Nat) (s : List Char) : List Char :=
  (s.drop a).take (b - a)

/-- Split a character list at newline characters (the line structure of a
text block; a trailing newline yields a final empty segment). -/
def linesOf : List Char → List (List Char)
  | [] => [[]]
  | c :: cs =>
    if c == '\n' then [] :: linesOf cs
    else
      match linesOf cs with
      | [] => [[c]]
      | l :: ls => (c :: l) :: ls

/-- Does a line contain at least one decimal digit? -/
def hasDigit (l : List Char) : Bool := l.any Char.isDigit

/-! ### `pdf_parser.py`: page-text assembly handed to the LLM collaborator

`extract_transactions_from_pdf` builds
`text_content += page.extract_text() + "\n"` for the first three pages
(`if i > 2: break`) and splices `text_content[:30000]` into the prompt. -/

/-- The `text_content` accumulation loop of `extract_transactions_from_pdf`. -/
def textContent (pages : List (List Char)) : List Char :=
  (pages.take 3).foldl (fun acc p => acc ++ p ++ ['\n']) []

/-- The statement text actually spliced into the extraction prompt:
`text_content[:30000]`. -/
def handedText (pages : List (List Char)) : List Char :=
  (textContent pages).take 30000

/-! ### A model of Python `json.loads`

`extract_transactions_from_pdf` hands the sanitized response to
`json.loads`.  The JSON grammar is embedded below (values, objects,
arrays, strings with escapes, numbers with fraction and exponent).
Abstractions: numbers are exact rationals (CPython converts to binary
floating point), the non-standard `NaN`/`Infinity` extensions are
omitted, `\uXXXX` escapes are mapped through `Char.ofNat` without
surrogate-pair combination, and duplicate object keys are kept as a
list rather than collapsed.  None of the claims depend on these corners. -/

inductive Json where
  | null : Json
  | bool : Bool → Json
  | num : ℚ → Json
  | str : List Char → Json
  | arr : List Json → Json
  | obj : List (List Char × Json) → Json
deriving Repr

/-- JSON whitespace skipping (space, tab, newline, carriage return). -/
def jWs (s : List Char) : List Char :=
  s.dropWhile (fun c => c == ' ' || c == '\t' || c == '\n' || c == '\r')

/-- Value of a hexadecimal digit. -/
def hexVal (c : Char) : Option Nat :=
  if '0' ≤ c ∧ c ≤ '9' then some (c.toNat - '0'.toNat)
  else if 'a' ≤ c ∧ c ≤ 'f' then some (c.toNat - 'a'.toNat + 10)
  else if 'A' ≤ c ∧ c ≤ 'F' then some (c.toNat - 'A'.toNat + 10)
  else none

/-- Parse the body of a JSON string (input starts after the opening
quote); returns the decoded characters and the rest after the closing
quote.  Unescaped control characters are rejected, as in strict-mode
`json.loads`. -/
def jStrAux : List Char → Option (List Char × List Char)
  | [] => none
  | c :: cs =>
    if c == '"' then some ([], cs)
    else if c == '\\' then
      match cs with
      | [] => none
      | e :: cs2 =>
        if e == '"' then (jStrAux cs2).map (fun p => ('"' :: p.1, p.2))
        else if e == '\\' then (jStrAux cs2).map (fun p => ('\\' :: p.1, p.2))
        else if e == '/' then (jStrAux cs2).map (fun p => ('/' :: p.1, p.2))
        else if e == 'b' then (jStrAux cs2).map (fun p => (Char.ofNat 8 :: p.1, p.2))
        else if e == 'f' then (jStrAux cs2).map (fun p => (Char.ofNat 12 :: p.1, p.2))
        else if e == 'n' then (jStrAux cs2).map (fun p => ('\n' :: p.1, p.2))
        else if e == 'r' then (jStrAux cs2).map (fun p => ('\r' :: p.1, p.2))
        else if e == 't' then (jStrAux cs2).map (fun p => ('\t' :: p.1, p.2))
        else if e == 'u' then
          match cs2 with
          | h1 :: h2 :: h3 :: h4 :: cs3 =>
            match hexVal h1, hexVal h2, hexVal h3, hexVal h4 with
            | some a, some b, some c3, some d =>
              (jStrAux cs3).map
                (fun p => (Char.ofNat (((a * 16 + b) * 16 + c3) * 16 + d) :: p.1, p.2))
            | _, _, _, _ => none
          | _ => none
        else none
    else if c.toNat < 32 then none
    else (jStrAux cs).map (fun p => (c :: p.1, p.2))

/-- Numeric value of a run of decimal digits. -/
def digitsVal (ds : List Char) : Nat :=
  ds.foldl (fun a c => 10 * a + (c.toNat - '0'.toNat)) 0

/-- Attach the optional fraction and exponent groups to a parsed integer
part, mirroring the regex `(-?(?:0|[1-9]\d*))(\.\d+)?([eE][-+]?\d+)?`
used by the CPython `json` scanner: an incomplete group is simply not
consumed. -/
def jNumParts (neg : Bool) (ip : Nat) (r1 : List Char) : Json × List Char :=
  let fr : ℚ × List Char :=
    match r1 with
    | '.' :: r =>
      let fs := r.takeWhile Char.isDigit
      if fs.isEmpty then ((ip : ℚ), r1)
      else ((ip : ℚ) + (digitsVal fs : ℚ) / (10 : ℚ) ^ fs.length, r.dropWhile Char.isDigit)
    | _ => ((ip : ℚ), r1)
  let ex : ℚ × List Char :=
    match fr.2 with
    | e :: r =>
      if e == 'e' || e == 'E' then
        let se : Int × List Char :=
          match r with
          | c :: rr => if c == '+' then (1, rr) else if c == '-' then (-1, rr) else (1, r)
          | [] => (1, r)
        let es := se.2.takeWhile Char.isDigit
        if es.isEmpty then fr
        else (fr.1 * (10 : ℚ) ^ (se.1 * (digitsVal es : Int)), se.2.dropWhile Char.isDigit)
      else fr
    | [] => fr
  (Json.num (if neg then -ex.1 else ex.1), ex.2)

/-- Parse a JSON number at the head of the input.  The integer part is
`0 | [1-9][0-9]*`: after a leading `0` any further digits are left
unconsumed, exactly as the CPython scanner regex does. -/
def jNum (s : List Char) : Option (Json × List Char) :=
  let sg : Bool × List Char :=
    match s with
    | c :: r => if c == '-' then (true, r) else (false, s)
    | [] => (false, s)
  match sg.2 with
  | [] => none
  | '0' :: r => some (jNumParts sg.1 0 r)
  | c :: _ =>
    if c.isDigit then
      some (jNumParts sg.1 (digitsVal (sg.2.takeWhile Char.isDigit)) (sg.2.dropWhile Char.isDigit))
    else none

mutual

/-- Parse one JSON value; fuel bounds the recursion depth. -/
def jValue : Nat → List Char → Option (Json × List Char)
  | 0, _ => none
  | f + 1, s =>
    let t := jWs s
    match t with
    | [] => none
    | c :: cs =>
      if c == '{' then jObjBody f cs
      else if c == '[' then jArrBody f cs
      else if c == '"' then (jStrAux cs).map (fun p => (Json.str p.1, p.2))
      else if leadsWith ("true".toList) t then some (Json.bool true, t.drop 4)
      else if leadsWith ("false".toList) t then some (Json.bool false, t.drop 5)
      else if leadsWith ("null".toList) t then some (Json.null, t.drop 4)
      else jNum t

/-- Parse an array body (input starts after `[`). -/
def jArrBody : Nat → List Char → Option (Json × List Char)
  | 0, _ => none
  | f + 1, s =>
    match jWs s with
    | ']' :: r => some (Json.arr [], r)
    | _ =>
      match jValue f s with
      | none => none
      | some (v, r) =>
        match jArrTail f r with
        | none => none
        | some (vs, r2) => some (Json.arr (v :: vs), r2)

/-- Parse the `, value`* `]` tail of an array. -/
def jArrTail : Nat → List Char → Option (List Json × List Char)
  | 0, _ => none
  | f + 1, s =>
    match jWs s with
    | ']' :: r => some ([], r)
    | ',' :: r =>
      match jValue f r with
      | none => none
      | some (v, r1) =>
        match jArrTail f r1 with
        | none => none
        | some (vs, r2) => some (v :: vs, r2)
    | _ => none

/-- Parse one `"key": value` member of an object. -/
def jMember : Nat → List Char → Option ((List Char × Json) × List Char)
  | 0, _ => none
  | f + 1, s =>
    match jWs s with
    | '"' :: cs =>
      match jStrAux cs with
      | none => none
      | some (k, r1) =>
        match jWs r1 with
        | ':' :: r2 =>
          match jValue f r2 with
          | none => none
          | some (v, r3) => some ((k, v), r3)
        | _ => none
    | _ => none

/-- Parse an object body (input starts after `{`). -/
def jObjBody : Nat → List Char → Option (Json × List Char)
  | 0, _ => none
  | f + 1, s =>
    match jWs s with
    | '}' :: r => some (Json.obj [], r)
    | _ =>
      match jMember f s with
      | none => none
      | some (kv, r) =>
        match jObjTail f r with
        | none => none
        | some (kvs, r2) => some (Json.obj (kv :: kvs), r2)

/-- Parse the `, member`* `}` tail of an object. -/
def jObjTail : Nat → List Char → Option (List (List Char × Json) × List Char)
  | 0, _ => none
  | f + 1, s =>
    match jWs s with
    | '}' :: r => some ([], r)
    | ',' :: r =>
      match jMember f r with
      | none => none
      | some (kv, r1) =>
        match jObjTail f r1 with
        | none => none
        | some (kvs, r2) => some (kv :: kvs, r2)
    | _ => none

end

/-- `json.loads`: parse a complete document; anything but whitespace after
the value is an error.  The fuel `4 * length + 4` dominates the recursion
depth, which grows by at most a constant per consumed character. -/
def jsonParse (s : List Char) : Option Json :=
  match jValue (4 * s.length + 4) s with
  | some (v, r) => if (jWs r).isEmpty then some v else none
  | none => none

/-! ### `pdf_parser.py`: response sanitization and extraction

```
cleaned_json = response.text.replace("```json", "").replace("```", "").strip()
start_idx = cleaned_json.find('[')
end_idx = cleaned_json.rfind(']') + 1
if start_idx != -1 and end_idx != -1:
    cleaned_json = cleaned_json[start_idx:end_idx]
transactions = json.loads(cleaned_json)
```
Note `end_idx != -1` is always true (`rfind` returns `-1`, so `end_idx`
is `0` when `]` is absent), which the model reproduces. -/

/-- The fence-stripping and whitespace-stripping step applied to the raw
LLM response text. -/
def fenceStripped (resp : List Char) : List Char :=
  pyStrip (pyReplace ("```".toList) [] (pyReplace ("```json".toList) [] resp))

/-- The final value of the `cleaned_json` variable: the slice of the
stripped response from the first `[` to the last `]` inclusive (with the
source's `end_idx != -1` quirk when `]` is absent). -/
def sanitizeResponse (resp : List Char) : List Char :=
  let c := fenceStripped resp
  match firstIdxOf '[' c with
  | none => c
  | some s =>
    match lastIdxOf ']' c with
    | none => pySlice s 0 c
    | some j => pySlice s (j + 1) c

/-- What `extract_transactions_from_pdf` makes of one LLM response text:
`json.loads` of the sanitized payload, with the surrounding
`try ... except: return []` turning any parse failure into `[]`. -/
def parseLlmResponse (resp : List Char) : Json :=
  (jsonParse (sanitizeResponse resp)).getD (Json.arr [])

/-- Instruction text of the extraction prompt before the spliced
statement text (body abbreviated: no claim depends on its content). -/
def extractPromptPre : List Char :=
  ("You are an expert Data Extraction AI. I am providing raw text from a Bank" ++
   " Statement. Extract individual spending transactions into a JSON list.\n\nInput Text:\n").toList

/-- Instruction text of the extraction prompt after the spliced statement
text (extraction rules and output format; abbreviated likewise). -/
def extractPromptPost : List Char :=
  ("\n\nRules: clean merchant name; exact raw description line; payment mode" ++
   " guessed from keywords; positive amount, credits ignored; category guessed;" ++
   " date YYYY-MM-DD. Output Format: JSON List ONLY.").toList

/-- The full prompt handed to the LLM collaborator, with
`text_content[:30000]` spliced in. -/
def extractPrompt (pages : List (List Char)) : List Char :=
  extractPromptPre ++ handedText pages ++ extractPromptPost

/-- `extract_transactions_from_pdf`, with its two collaborators explicit:
`pdf` is the outcome of reading the PDF's page texts, `llm` the outcome
of `model.generate_content(...)` as a function of the prompt.  Any
exception from either collaborator is caught by the surrounding
`try ... except` and converted into `[]`. -/
def extract_transactions_from_pdf (pdf : Except (List Char) (List (List Char)))
    (llm : List Char → Except (List Char) (List Char)) : Json :=
  match pdf with
  | Except.error _ => Json.arr []
  | Except.ok pages =>
    match llm (extractPrompt pages) with
    | Except.error _ => Json.arr []
    | Except.ok resp => parseLlmResponse resp

/-! ### `main.py`: the Dedup/Ingest pipeline

The `transactions` table has columns
`(date, merchant_name, raw_description, payment_mode, amount, category)`
and the insert is
`INSERT ... ON CONFLICT (date, raw_description, amount) DO NOTHING`,
so the store is a list of rows whose uniqueness constraint is the
composite natural key `(date, raw_description, amount)`. -/

/-- One persisted transaction row. -/
structure Row where
  date : List Char
  merchant_name : List Char
  raw_description : List Char
  payment_mode : List Char
  amount : ℚ
  category : List Char
deriving DecidableEq, Repr

/-- Do two rows collide on the natural key `(date, raw_description, amount)`? -/
def sameKey (a b : Row) : Bool :=
  a.date == b.date && a.raw_description == b.raw_description && a.amount == b.amount

/-- Is a row's natural key already present in the store? -/
def keyPresent (db : List Row) (r : Row) : Bool :=
  db.any (fun x => sameKey x r)

/-- One `INSERT ... ON CONFLICT DO NOTHING` of a single row: the unique
constraint on the natural key suppresses the insert on a collision; the
second component is the statement's rowcount (1 if inserted, 0 if the
conflict clause fired). -/
def insertRow (db : List Row) (r : Row) : List Row × Nat :=
  if keyPresent db r then (db, 0) else (db ++ [r], 1)

/-- `cur.executemany(query, data_tuples)` over one batch: a sequential
single-row insert per tuple (each statement sees the rows inserted by the
previous ones of the same batch).  The second component models
`cur.rowcount` after `executemany`, which psycopg2 (≥ 2.6.2) reports as
the sum of the per-statement rowcounts. -/
def executemanyInsert : List Row → List Row → List Row × Nat
  | db, [] => (db, 0)
  | db, r :: rs =>
    let p := insertRow db r
    let q := executemanyInsert p.1 rs
    (q.1, p.2 + q.2)

/-- A candidate record as decoded from the extractor's JSON: a Python
dict in which any key may be absent. -/
structure TxRec where
  date : Option (List Char)
  merchant_name : Option (List Char)
  raw_description : Option (List Char)
  payment_mode : Option (List Char)
  amount : Option ℚ
  category : Option (List Char)
deriving DecidableEq, Repr

/-- `r[k]` on a dict: a missing key raises `KeyError`. -/
def getKey (v : Option α) (k : List Char) : Except (List Char) α :=
  match v with
  | some x => Except.ok x
  | none => Except.error ("KeyError: ".toList ++ k)

/-- One element of the `data_tuples` list comprehension:
`(r['date'], r['merchant_name'], r.get('raw_description', r['merchant_name']),
  r.get('payment_mode', 'Unknown'), r['amount'], r['category'])`. -/
def toTuple (r : TxRec) : Except (List Char) Row := do
  let d ← getKey r.date ("date".toList)
  let m ← getKey r.merchant_name ("merchant_name".toList)
  let rd := r.raw_description.getD m
  let pm := r.payment_mode.getD ("Unknown".toList)
  let a ← getKey r.amount ("amount".toList)
  let c ← getKey r.category ("category".toList)
  return ⟨d, m, rd, pm, a, c⟩

/-- The whole `data_tuples` comprehension: evaluated eagerly left to
right, the first `KeyError` aborts it with no list produced. -/
def buildTuples : List TxRec → Except (List Char) (List Row)
  | [] => Except.ok []
  | r :: rs => do
    let row ← toTuple r
    let rows ← buildTuples rs
    return row :: rows

/-- The opaque message carried by a store-level exception
(`str(e)` of the psycopg2 error). -/
def dbFailMsg : List Char := "could not connect to server".toList

/-- The per-page upload loop of `main.py`'s `Process & Save` handler for
page batches `pages` (each the list of records one extractor call
returned), starting at page index `i` with committed store `db`:

* an empty batch skips the insert (`if new_data:`);
* a `KeyError` while building `data_tuples`, or a store failure during
  `executemany` (modelled by the `storeFail` oracle, indexed by page),
  propagates to the handler's `except` clause, ending the upload with an
  error while the store keeps exactly the batches committed so far;
* otherwise the batch is inserted and committed and `cur.rowcount` is
  added to `total_added`, which the handler reports on success. -/
def runUpload (storeFail : Nat → Bool) :
    Nat → List Row → List (List TxRec) → List Row × Except (List Char) Nat
  | _, db, [] => (db, Except.ok 0)
  | i, db, batch :: rest =>
    if batch.isEmpty then runUpload storeFail (i + 1) db rest
    else
      match buildTuples batch with
      | Except.error e => (db, Except.error e)
      | Except.ok rows =>
        if storeFail i then (db, Except.error dbFailMsg)
        else
          let p := executemanyInsert db rows
          match runUpload storeFail (i + 1) p.1 rest with
          | (dbf, Except.ok n) => (dbf, Except.ok (p.2 + n))
          | (dbf, Except.error e) => (dbf, Except.error e)

/-- A record all of whose keys are present, carrying exactly a row's
fields. -/
def recOfRow (r : Row) : TxRec :=
  ⟨some r.date, some r.merchant_name, some r.raw_description,
   some r.payment_mode, some r.amount, some r.category⟩

/-- Committed store state after ingesting a sequence of row batches. -/
def ingestAll (db : List Row) (bs : List (List Row)) : List Row :=
  bs.foldl (fun d b => (executemanyInsert d b).1) db

/-- No two rows of the store collide on the natural key — the uniqueness
constraint backing `ON CONFLICT (date, raw_description, amount)`. -/
def KeyUnique (db : List Row) : Prop :=
  List.Pairwise (fun a b => sameKey a b = false) db

/-! ### `agent_tools.py`: `search_current_price` -/

/-- `"\n".join(...)` over the result snippets. -/
def joinNL : List (List Char) → List Char
  | [] => []
  | [x] => x
  | x :: xs => x ++ '\n' :: joinNL xs

/-- The message returned when the web search yields nothing. -/
def noResultsMsg : List Char := "No search results found.".toList

/-- Price-lookup prompt before the service name (abbreviated body). -/
def pricePromptPre : List Char := "I searched for the price of ".toList

/-- Price-lookup prompt between the service name and the snippets. -/
def pricePromptMid : List Char := " and got these results:\n\n".toList

/-- Price-lookup prompt after the snippets (extraction rules, abbreviated). -/
def pricePromptPost : List Char :=
  ("\n\nTask: Extract the standard monthly price in Indian Rupees." ++
   " Return ONLY the number. If you cannot find a price, return 0.").toList

/-- The full price-lookup prompt. -/
def pricePrompt (service ctx : List Char) : List Char :=
  pricePromptPre ++ service ++ pricePromptMid ++ ctx ++ pricePromptPost

/-- Match of the regex `[-+]?\d*\.\d+|\d+` anchored at the start of `s`:
the first alternative (optional sign, greedy digits, a dot, at least one
digit) is preferred; otherwise a digit run.  Returns the matched text. -/
def matchNumAt (s : List Char) : Option (List Char) :=
  let sg : List Char × List Char :=
    match s with
    | c :: r => if c == '-' || c == '+' then ([c], r) else ([], s)
    | [] => ([], [])
  let ds := sg.2.takeWhile Char.isDigit
  let alt2 : Option (List Char) :=
    match s with
    | c :: _ => if c.isDigit then some (s.takeWhile Char.isDigit) else none
    | [] => none
  match sg.2.dropWhile Char.isDigit with
  | '.' :: r2 =>
    let fs := r2.takeWhile Char.isDigit
    if fs.isEmpty then alt2 else some (sg.1 ++ ds ++ '.' :: fs)
  | _ => alt2

/-- `re.findall(r"[-+]?\d*\.\d+|\d+", s)` restricted to its first match
(the code only uses `price[0]` and emptiness): scan positions left to
right. -/
def findFirstNumber : List Char → Option (List Char)
  | [] => none
  | c :: cs =>
    match matchNumAt (c :: cs) with
    | some m => some m
    | none => findFirstNumber cs

/-- `float(...)` on a string matched by the regex above (exact rational;
binary floating-point rounding is abstracted away). -/
def pyFloat (s : List Char) : ℚ :=
  let absPart : List Char → ℚ := fun t =>
    let ip := t.takeWhile Char.isDigit
    match t.dropWhile Char.isDigit with
    | '.' :: fs => (digitsVal ip : ℚ) + (digitsVal fs : ℚ) / (10 : ℚ) ^ fs.length
    | _ => (digitsVal ip : ℚ)
  match s with
  | '-' :: r => -(absPart r)
  | '+' :: r => absPart r
  | _ => absPart s

/-- `search_current_price(service_name)` with its collaborators explicit:
`searchOut` is the outcome of `DDGS().text(query, max_results=3)`
(already projected to the snippet bodies), `llm` the outcome of
`model.generate_content` as a function of the prompt.  The first
component models the Python return value `None`/number, the second the
accompanying diagnostic text.  Any exception is caught by the
surrounding `try ... except` and becomes `(0, str(e))`. -/
def search_current_price (service : List Char)
    (searchOut : Except (List Char) (List (List Char)))
    (llm : List Char → Except (List Char) (List Char)) : Option ℚ × List Char :=
  match searchOut with
  | Except.error e => (some 0, e)
  | Except.ok results =>
    if results.isEmpty then (none, noResultsMsg)
    else
      let ctx := joinNL results
      match llm (pricePrompt service ctx) with
      | Except.error e => (some 0, e)
      | Except.ok resp =>
        match findFirstNumber (pyStrip resp) with
        | some m => (some (pyFloat m), ctx)
        | none => (some 0, ctx)

/-! ### Support for stating the claims -/

/-- All contiguous slices of a character list. -/
def slicesOf (s : List Char) : List (List Char) :=
  ((List.range (s.length + 1)).map (fun i =>
    (List.range (s.length + 1)).map (fun j => (s.drop i).take (j - i)))).foldr
    (fun a b => a ++ b) []

/-- The distinct contiguous slices of `s` that are (without surrounding
whitespace) a valid JSON list literal — "`s` contains a single valid
JSON list" means this is a singleton. -/
def jsonListSlices (s : List Char) : List (List Char) :=
  ((slicesOf s).filter (fun t =>
    pyStrip t == t &&
    match jsonParse t with
    | some (Json.arr _) => true
    | _ => false)).dedup

/-- A sample transaction row (witness data). -/
def rowA : Row :=
  ⟨"2024-10-05".toList, "Starbucks".toList, "POS 445590 STARBUCKS COFFEE MUMBAI".toList,
   "Card".toList, 250, "Food".toList⟩

/-- A second sample row with a different natural key (witness data). -/
def rowB : Row :=
  ⟨"2024-10-06".toList, "Zomato".toList, "UPI-ZOMATO-443".toList,
   "UPI".toList, 399, "Food".toList⟩

/-- A candidate record carrying every key (witness data). -/
def recFull : TxRec := recOfRow rowA

/-- A candidate record lacking `raw_description` and `payment_mode`
(witness data). -/
def recDefaults : TxRec :=
  ⟨some ("2024-10-05".toList), some ("Starbucks".toList), none, none,
   some 250, some ("Food".toList)⟩

/-- A candidate record lacking the required `merchant_name` key
(witness data). -/
def recBad : TxRec :=
  ⟨some ("2024-10-05".toList), none, none, none, some 250, some ("Food".toList)⟩

/-! ## Monad computation lemmas for `Except` -/

/-- `bind` on a successful `Except` computation. -/
theorem exBind_ok {α β : Type} (a : α) (f : α → Except (List Char) β) :
    (Except.ok a >>= f) = f a := rfl

/-- `bind` on a failed `Except` computation. -/
theorem exBind_err {α β : Type} (e : List Char) (f : α → Except (List Char) β) :
    ((Except.error e : Except (List Char) α) >>= f) = Except.error e := rfl

/-! ## Dedup/Ingest lemmas -/

/-- The natural-key collision test is reflexive. -/
theorem sameKey_refl (r : Row) : sameKey r r = true := by simp [sameKey]

/-- Key-presence in a store extended by one row. -/
theorem keyPresent_append (db : List Row) (r x : Row) :
    keyPresent (db ++ [r]) x = (keyPresent db x || sameKey r x) := by
  simp [keyPresent]

/-- A present key stays present across a single-row insert. -/
theorem keyPresent_insertRow (db : List Row) (r x : Row)
    (h : keyPresent db x = true) : keyPresent (insertRow db r).1 x = true := by
  rw [insertRow]
  split
  · exact h
  · rw [keyPresent_append, h, Bool.true_or]

/-- After inserting a row, its key is present. -/
theorem keyPresent_self_insertRow (db : List Row) (r : Row) :
    keyPresent (insertRow db r).1 r = true := by
  rw [insertRow]
  split
  · assumption
  · rw [keyPresent_append, sameKey_refl, Bool.or_true]

/-- A present key stays present across a whole batch insert. -/
theorem keyPresent_executemany : ∀ (rs : List Row) (db : List Row) (x : Row),
    keyPresent db x = true → keyPresent (executemanyInsert db rs).1 x = true := by
  intro rs
  induction rs with
  | nil => intro db x h; exact h
  | cons r rs ih =>
    intro db x h
    simp only [executemanyInsert]
    exact ih _ x (keyPresent_insertRow db r x h)

/-- Every key of an ingested batch is present afterwards. -/
theorem keyPresent_executemany_mem : ∀ (rs : List Row) (db : List Row) (r : Row),
    r ∈ rs → keyPresent (executemanyInsert db rs).1 r = true := by
  intro rs
  induction rs with
  | nil => intro db r h; cases h
  | cons a as ih =>
    intro db r h
    simp only [executemanyInsert]
    rcases List.mem_cons.mp h with rfl | h'
    · exact keyPresent_executemany as _ r (keyPresent_self_insertRow db r)
    · exact ih _ r h'

/-- A batch whose keys are all present inserts nothing and leaves the
store unchanged, with rowcount 0. -/
theorem executemany_all_present : ∀ (rs : List Row) (db : List Row),
    (∀ r ∈ rs, keyPresent db r = true) → executemanyInsert db rs = (db, 0) := by
  intro rs
  induction rs with
  | nil => intro db _; rfl
  | cons a as ih =>
    intro db h
    have ha : keyPresent db a = true := h a (by simp)
    simp only [executemanyInsert, insertRow, ha, if_true]
    rw [ih db (fun r hr => h r (by simp [hr]))]
    rfl

/-- The accumulated rowcount is exactly the growth of the store. -/
theorem executemany_length : ∀ (rs : List Row) (db : List Row),
    (executemanyInsert db rs).1.length = db.length + (executemanyInsert db rs).2 := by
  intro rs
  induction rs with
  | nil => intro db; simp [executemanyInsert]
  | cons a as ih =>
    intro db
    simp only [executemanyInsert]
    rw [ih]
    have h : (insertRow db a).1.length = db.length + (insertRow db a).2 := by
      rw [insertRow]; split <;> simp
    omega

/-- A batch of pairwise-distinct keys, none present, inserts every row. -/
theorem executemany_all_new : ∀ (rs : List Row) (db : List Row),
    (∀ r ∈ rs, keyPresent db r = false) →
    List.Pairwise (fun a b => sameKey a b = false) rs →
    (executemanyInsert db rs).2 = rs.length := by
  intro rs
  induction rs with
  | nil => intro db _ _; rfl
  | cons a as ih =>
    intro db hnew hdist
    have ha : keyPresent db a = false := hnew a (by simp)
    have hd := List.pairwise_cons.mp hdist
    have hstep : ∀ r ∈ as, keyPresent (db ++ [a]) r = false := by
      intro r hr
      rw [keyPresent_append, hnew r (by simp [hr]), hd.1 r hr]
      rfl
    simp only [executemanyInsert, insertRow, ha, Bool.false_eq_true, if_false]
    rw [ih (db ++ [a]) hstep hd.2]
    simp [Nat.add_comm]

/-- A single-row insert preserves key-uniqueness of the store. -/
theorem keyUnique_insertRow (db : List Row) (r : Row) (h : KeyUnique db) :
    KeyUnique (insertRow db r).1 := by
  rw [insertRow]
  by_cases hp : keyPresent db r = true
  · simpa [hp] using h
  · have hp' : keyPresent db r = false := by
      revert hp; cases keyPresent db r <;> simp
    have hall : ∀ x ∈ db, sameKey x r = false := by
      simpa [keyPresent, List.any_eq_false] using hp'
    simp only [hp', Bool.false_eq_true, if_false]
    rw [KeyUnique, List.pairwise_append]
    refine ⟨h, by simp, ?_⟩
    intro a ha b hb
    simp only [List.mem_singleton] at hb
    subst hb
    exact hall a ha

/-- A batch insert preserves key-uniqueness of the store. -/
theorem keyUnique_executemany : ∀ (rs : List Row) (db : List Row),
    KeyUnique db → KeyUnique (executemanyInsert db rs).1 := by
  intro rs
  induction rs with
  | nil => intro db h; exact h
  | cons a as ih =>
    intro db h
    simp only [executemanyInsert]
    exact ih _ (keyUnique_insertRow db a h)

/-! ## Claim C1 -/

/-- Claim C1: deduplication by the natural key `(date, raw_description,
amount)` — a batch insert into a key-unique store leaves it key-unique
(no two persisted rows ever agree on the key), and re-ingesting the same
batch inserts zero new rows and leaves the persisted rows identical. -/
theorem c1_dedup_idempotent (db : List Row) (rs : List Row) (h : KeyUnique db) :
    KeyUnique (executemanyInsert db rs).1 ∧
    executemanyInsert (executemanyInsert db rs).1 rs = ((executemanyInsert db rs).1, 0) :=
  ⟨keyUnique_executemany rs db h,
   executemany_all_present rs _ (fun r hr => keyPresent_executemany_mem rs db r hr)⟩

/-- Witness for `c1_dedup_idempotent` on a concrete batch (with an
internal duplicate) ingested into the empty store. -/
theorem c1_witness :
    KeyUnique ((executemanyInsert [] [rowA, rowB, rowA]).1) ∧
    executemanyInsert (executemanyInsert [] [rowA, rowB, rowA]).1 [rowA, rowB, rowA] =
      ((executemanyInsert [] [rowA, rowB, rowA]).1, 0) :=
  c1_dedup_idempotent [] [rowA, rowB, rowA] (by simp [KeyUnique])

/-! ## Claim C5 -/

/-- Claim C5: the count reported after the bulk insert (`cur.rowcount`
accumulated into `total_added`) equals the number of rows actually
inserted after conflict resolution — the store's growth — so a batch of
all duplicates reports zero and a batch of all new records reports the
batch size. -/
theorem c5_rowcount_reports_inserted (db : List Row) (rs : List Row) :
    (executemanyInsert db rs).1.length = db.length + (executemanyInsert db rs).2 ∧
    ((∀ r ∈ rs, keyPresent db r = true) → (executemanyInsert db rs).2 = 0) ∧
    ((∀ r ∈ rs, keyPresent db r = false) →
      List.Pairwise (fun a b => sameKey a b = false) rs →
      (executemanyInsert db rs).2 = rs.length) := by
  refine ⟨executemany_length rs db, ?_, ?_⟩
  · intro h
    rw [executemany_all_present rs db h]
  · intro h1 h2
    exact executemany_all_new rs db h1 h2

/-- Witness for `c5_rowcount_reports_inserted`: an all-duplicate batch
reports 0 and an all-new batch reports its size. -/
theorem c5_witness :
    (executemanyInsert [rowA] [rowA]).1.length =
      [rowA].length + (executemanyInsert [rowA] [rowA]).2 ∧
    (executemanyInsert [rowA] [rowA]).2 = 0 ∧
    (executemanyInsert [] [rowA, rowB]).2 = [rowA, rowB].length :=
  ⟨(c5_rowcount_reports_inserted [rowA] [rowA]).1,
   (c5_rowcount_reports_inserted [rowA] [rowA]).2.1 (by decide),
   (c5_rowcount_reports_inserted [] [rowA, rowB]).2.2 (by decide) (by decide)⟩

/-! ## Claim C4 -/

/-- Claim C4: missing-field defaulting in the `data_tuples` construction —
a record lacking `raw_description` yields a tuple with `raw_description`
equal to its `merchant_name`, one lacking `payment_mode` yields
`"Unknown"`, and records carrying both fields pass them through
unchanged. -/
theorem c4_missing_field_defaulting (r : TxRec) (d m : List Char) (a : ℚ) (c : List Char)
    (hd : r.date = some d) (hm : r.merchant_name = some m)
    (ha : r.amount = some a) (hc : r.category = some c) :
    (r.raw_description = none → r.payment_mode = none →
      toTuple r = Except.ok ⟨d, m, m, "Unknown".toList, a, c⟩) ∧
    (∀ rd, r.raw_description = some rd → r.payment_mode = none →
      toTuple r = Except.ok ⟨d, m, rd, "Unknown".toList, a, c⟩) ∧
    (r.raw_description = none → ∀ pm, r.payment_mode = some pm →
      toTuple r = Except.ok ⟨d, m, m, pm, a, c⟩) ∧
    (∀ rd pm, r.raw_description = some rd → r.payment_mode = some pm →
      toTuple r = Except.ok ⟨d, m, rd, pm, a, c⟩) := by
  obtain ⟨od, om, ord, opm, oa, oc⟩ := r
  dsimp only at hd hm ha hc
  subst hd hm ha hc
  refine ⟨?_, ?_, ?_, ?_⟩
  · intro h1 h2
    dsimp only at h1 h2
    subst h1 h2
    rfl
  · intro rd h1 h2
    dsimp only at h1 h2
    subst h1 h2
    rfl
  · intro h1 pm h2
    dsimp only at h1 h2
    subst h1 h2
    rfl
  · intro rd pm h1 h2
    dsimp only at h1 h2
    subst h1 h2
    rfl

/-- Witness for `c4_missing_field_defaulting` at a record lacking both
optional fields and at one carrying both. -/
theorem c4_witness :
    toTuple recDefaults =
      Except.ok ⟨"2024-10-05".toList, "Starbucks".toList, "Starbucks".toList,
        "Unknown".toList, 250, "Food".toList⟩ ∧
    toTuple recFull = Except.ok rowA :=
  ⟨(c4_missing_field_defaulting recDefaults _ _ _ _ rfl rfl rfl rfl).1 rfl rfl,
   (c4_missing_field_defaulting recFull _ _ _ _ rfl rfl rfl rfl).2.2.2 _ _ rfl rfl⟩

/-! ## Required-key and upload-loop lemmas -/

/-- A record lacking any of the four required keys makes its tuple
construction raise a `KeyError`. -/
theorem toTuple_error_of_missing (r : TxRec)
    (h : r.date = none ∨ r.merchant_name = none ∨ r.amount = none ∨ r.category = none) :
    ∃ e, toTuple r = Except.error e := by
  obtain ⟨od, om, ord, opm, oa, oc⟩ := r
  dsimp only at h
  rcases h with h | h | h | h
  · subst h
    exact ⟨_, rfl⟩
  · subst h
    cases od with
    | none => exact ⟨_, rfl⟩
    | some d => exact ⟨_, rfl⟩
  · subst h
    cases od with
    | none => exact ⟨_, rfl⟩
    | some d =>
      cases om with
      | none => exact ⟨_, rfl⟩
      | some m => exact ⟨_, rfl⟩
  · subst h
    cases od with
    | none => exact ⟨_, rfl⟩
    | some d =>
      cases om with
      | none => exact ⟨_, rfl⟩
      | some m =>
        cases oa with
        | none => exact ⟨_, rfl⟩
        | some a => exact ⟨_, rfl⟩

/-- A batch containing a record with a missing required key makes the
whole `data_tuples` comprehension raise. -/
theorem buildTuples_error_of_bad : ∀ (rs : List TxRec) (r : TxRec), r ∈ rs →
    (r.date = none ∨ r.merchant_name = none ∨ r.amount = none ∨ r.category = none) →
    ∃ e, buildTuples rs = Except.error e := by
  intro rs
  induction rs with
  | nil => intro r h; cases h
  | cons a as ih =>
    intro r hmem hbad
    rcases List.mem_cons.mp hmem with rfl | h'
    · obtain ⟨e, he⟩ := toTuple_error_of_missing r hbad
      exact ⟨e, by simp only [buildTuples, he, exBind_err]⟩
    · cases ht : toTuple a with
      | error e => exact ⟨e, by simp only [buildTuples, ht, exBind_err]⟩
      | ok row =>
        obtain ⟨e, he⟩ := ih r h' hbad
        exact ⟨e, by simp only [buildTuples, ht, exBind_ok, he, exBind_err]⟩

/-- A record with all keys present builds exactly its row. -/
theorem toTuple_recOfRow (r : Row) : toTuple (recOfRow r) = Except.ok r := rfl

/-- A batch of all-keys-present records builds exactly its rows. -/
theorem buildTuples_recOfRow : ∀ (rows : List Row),
    buildTuples (rows.map recOfRow) = Except.ok rows := by
  intro rows
  induction rows with
  | nil => rfl
  | cons a as ih =>
    simp only [List.map_cons, buildTuples, toTuple_recOfRow, exBind_ok, ih]
    rfl

/-! ## Claim C9 -/

/-- Claim C9: required-key strictness at ingest — a batch containing a
record lacking `date`, `merchant_name`, `amount` or `category` makes the
tuple construction raise a key-lookup error, so no row of that batch is
inserted, no later page is processed, and the upload ends in the error
branch, for every store oracle and page index. -/
theorem c9_required_key_strict (db : List Row) (batch : List TxRec)
    (rest : List (List TxRec)) (r : TxRec) (hmem : r ∈ batch)
    (hbad : r.date = none ∨ r.merchant_name = none ∨ r.amount = none ∨ r.category = none) :
    ∃ e, buildTuples batch = Except.error e ∧
      ∀ (storeFail : Nat → Bool) (i : Nat),
        runUpload storeFail i db (batch :: rest) = (db, Except.error e) := by
  obtain ⟨e, he⟩ := buildTuples_error_of_bad batch r hmem hbad
  refine ⟨e, he, ?_⟩
  intro sf i
  have hne : batch.isEmpty = false := by
    cases batch
    · cases hmem
    · rfl
  simp only [runUpload, hne, Bool.false_eq_true, if_false, he]

/-- Witness for `c9_required_key_strict` at a one-record batch lacking
`merchant_name`. -/
theorem c9_witness :
    ∃ e, buildTuples [recBad] = Except.error e ∧
      ∀ (storeFail : Nat → Bool) (i : Nat),
        runUpload storeFail i [] [[recBad]] = ([], Except.error e) :=
  c9_required_key_strict [] [recBad] [] recBad (by simp) (Or.inr (Or.inl rfl))

/-! ## Claim C7 -/

/-- Store-failure behaviour of the upload loop, generalized over the
starting page index: if the first `k` batches insert cleanly and the
store fails at batch `k`, the upload ends in the error branch with the
store holding exactly the first `k` committed batches. -/
theorem runUpload_store_fail : ∀ (tb : List (List Row)) (k i : Nat) (db : List Row)
    (sf : Nat → Bool), k < tb.length →
    (∀ j, j < k → sf (i + j) = false) →
    sf (i + k) = true →
    (∀ b ∈ tb, b ≠ []) →
    runUpload sf i db (tb.map (fun b => b.map recOfRow)) =
      (ingestAll db (tb.take k), Except.error dbFailMsg) := by
  intro tb
  induction tb with
  | nil =>
    intro k i db sf hk
    exact absurd hk (by simp)
  | cons b rest ih =>
    intro k i db sf hk hbefore hfail hne
    have hbne : b ≠ [] := hne b (by simp)
    have hmapne : (b.map recOfRow).isEmpty = false := by
      cases b
      · exact absurd rfl hbne
      · rfl
    cases k with
    | zero =>
      have hf : sf i = true := by simpa using hfail
      simp only [List.map_cons, runUpload, hmapne, Bool.false_eq_true, if_false,
        buildTuples_recOfRow, hf, if_true, List.take_zero]
      rfl
    | succ k' =>
      have hf0 : sf i = false := by
        have := hbefore 0 (Nat.succ_pos k')
        simpa using this
      have harg1 : ∀ j, j < k' → sf (i + 1 + j) = false := by
        intro j hj
        have := hbefore (j + 1) (by omega)
        rw [show i + 1 + j = i + (j + 1) from by omega]
        exact this
      have harg2 : sf (i + 1 + k') = true := by
        rw [show i + 1 + k' = i + (k' + 1) from by omega]
        exact hfail
      have ihh := ih k' (i + 1) (executemanyInsert db b).1 sf (by simpa using hk)
        harg1 harg2 (fun x hx => hne x (by simp [hx]))
      simp only [List.map_cons, runUpload, hmapne, Bool.false_eq_true, if_false,
        buildTuples_recOfRow, hf0, ihh]
      simp [ingestAll]

/-- Claim C7: per-batch isolation on store failure — each page's batch is
its own committed unit of work; if the bulk insert fails at batch `k`,
the upload surfaces an ingest failure and the store holds exactly the
rows committed by the earlier batches, unchanged. -/
theorem c7_batch_isolation (db : List Row) (tb : List (List Row)) (k : Nat)
    (sf : Nat → Bool) (hk : k < tb.length)
    (hbefore : ∀ j, j < k → sf j = false) (hfail : sf k = true)
    (hne : ∀ b ∈ tb, b ≠ []) :
    runUpload sf 0 db (tb.map (fun b => b.map recOfRow)) =
      (ingestAll db (tb.take k), Except.error dbFailMsg) :=
  runUpload_store_fail tb k 0 db sf hk
    (fun j hj => by simpa using hbefore j hj) (by simpa using hfail) hne

/-- Witness for `c7_batch_isolation`: two one-row batches, the store
failing at the second — the first batch's row stays committed. -/
theorem c7_witness :
    runUpload (fun j => j == 1) 0 [] ([[rowA], [rowB]].map (fun b => b.map recOfRow)) =
      (ingestAll [] ([[rowA], [rowB]].take 1), Except.error dbFailMsg) :=
  c7_batch_isolation [] [[rowA], [rowB]] 1 (fun j => j == 1)
    (by decide)
    (fun j hj => by
      have : j = 0 := by omega
      subst this
      rfl)
    rfl
    (by decide)

/-! ## Line-structure lemmas -/

/-- `linesOf` never returns an empty list of segments. -/
theorem linesOf_ne_nil (s : List Char) : linesOf s ≠ [] := by
  cases s with
  | nil => simp [linesOf]
  | cons c cs =>
    cases h : c == '\n' with
    | true => simp [linesOf, h]
    | false =>
      simp only [linesOf, h, Bool.false_eq_true, if_false]
      cases hl : linesOf cs <;> simp

/-- Appending a final newline appends one empty line segment. -/
theorem linesOf_append_newline (s : List Char) :
    linesOf (s ++ ['\n']) = linesOf s ++ [[]] := by
  induction s with
  | nil => rfl
  | cons c cs ih =>
    cases h : c == '\n' with
    | true => simp [linesOf, h, ih]
    | false =>
      obtain ⟨l, ls, hl⟩ : ∃ l ls, linesOf cs = l :: ls := by
        cases hll : linesOf cs with
        | nil => exact absurd hll (linesOf_ne_nil cs)
        | cons a b => exact ⟨a, b, rfl⟩
      simp [linesOf, h, ih, hl]

/-! ## Claim C6 -/

/-- Claim C6 as stated — "the text handed to the extraction collaborator
retains a line if and only if that line contains at least one decimal
digit character" — is false: `extract_transactions_from_pdf` splices the
concatenated page text into the prompt unfiltered, so the digit-free line
"Total due" of a one-page document is handed to the collaborator. -/
theorem c6_counterexample :
    ¬ (∀ (pages : List (List Char)) (line : List Char),
        line ∈ linesOf (handedText pages) → hasDigit line = true) := by
  intro h
  exact absurd (h ["Total due".toList] ("Total due".toList) (by decide)) (by decide)

/-- Claim C6 amended: the text handed to the extraction collaborator
retains EVERY line of the raw page text — digit-free lines included — in
their original input order (with one trailing empty segment from the
final appended newline); no digit filtering occurs in this code path. -/
theorem c6_all_lines_retained (p : List Char) (h : p.length + 1 ≤ 30000) :
    linesOf (handedText [p]) = linesOf p ++ [[]] := by
  have h0 : textContent [p] = p ++ ['\n'] := by simp [textContent]
  have h1 : handedText [p] = p ++ ['\n'] := by
    rw [handedText, h0]
    exact List.take_of_length_le (by simp; omega)
  rw [h1, linesOf_append_newline]

/-- Witness for `c6_all_lines_retained` at the spec's scenario-1 page
text. -/
theorem c6_witness :
    ("Total due\n05/10 STARBUCKS 250.00".toList.length + 1 ≤ 30000) ∧
    linesOf (handedText ["Total due\n05/10 STARBUCKS 250.00".toList]) =
      linesOf ("Total due\n05/10 STARBUCKS 250.00".toList) ++ [[]] :=
  ⟨by decide, c6_all_lines_retained _ (by decide)⟩

/-! ## Claim C8 -/

/-- Claim C8: `search_current_price` never raises past its boundary; every
failure yields a sentinel unknown price with its diagnostic context —
`(0, str(e))` when the search or LLM collaborator raises,
`(None, "No search results found.")` on empty search results, and
`(0, search_context)` when the response holds no numeric substring. -/
theorem c8_price_lookup_soft_fail (service : List Char)
    (searchOut : Except (List Char) (List (List Char)))
    (llm : List Char → Except (List Char) (List Char)) :
    (∀ e, searchOut = Except.error e →
      search_current_price service searchOut llm = (some 0, e)) ∧
    (searchOut = Except.ok [] →
      search_current_price service searchOut llm = (none, noResultsMsg)) ∧
    (∀ rs e, searchOut = Except.ok rs → rs ≠ [] →
      llm (pricePrompt service (joinNL rs)) = Except.error e →
      search_current_price service searchOut llm = (some 0, e)) ∧
    (∀ rs resp, searchOut = Except.ok rs → rs ≠ [] →
      llm (pricePrompt service (joinNL rs)) = Except.ok resp →
      findFirstNumber (pyStrip resp) = none →
      search_current_price service searchOut llm = (some 0, joinNL rs)) := by
  refine ⟨?_, ?_, ?_, ?_⟩
  · intro e he
    subst he
    rfl
  · intro h
    subst h
    rfl
  · intro rs e hs hne hllm
    subst hs
    have hrs : rs.isEmpty = false := by
      cases rs
      · exact absurd rfl hne
      · rfl
    simp only [search_current_price, hrs, Bool.false_eq_true, if_false, hllm]
  · intro rs resp hs hne hllm hnum
    subst hs
    have hrs : rs.isEmpty = false := by
      cases rs
      · exact absurd rfl hne
      · rfl
    simp only [search_current_price, hrs, Bool.false_eq_true, if_false, hllm, hnum]

/-- Witness for `c8_price_lookup_soft_fail` at all four failure shapes. -/
theorem c8_witness :
    search_current_price ("Netflix".toList) (Except.error ("timeout".toList))
      (fun _ => Except.ok ("199".toList)) = (some 0, "timeout".toList) ∧
    search_current_price ("Netflix".toList) (Except.ok [])
      (fun _ => Except.ok ("199".toList)) = (none, noResultsMsg) ∧
    search_current_price ("Netflix".toList) (Except.ok ["some snippet".toList])
      (fun _ => Except.error ("rate limit".toList)) = (some 0, "rate limit".toList) ∧
    search_current_price ("Netflix".toList) (Except.ok ["some snippet".toList])
      (fun _ => Except.ok ("no price found".toList)) =
        (some 0, joinNL ["some snippet".toList]) :=
  ⟨(c8_price_lookup_soft_fail ("Netflix".toList) (Except.error ("timeout".toList))
      (fun _ => Except.ok ("199".toList))).1 _ rfl,
   (c8_price_lookup_soft_fail ("Netflix".toList) (Except.ok [])
      (fun _ => Except.ok ("199".toList))).2.1 rfl,
   (c8_price_lookup_soft_fail ("Netflix".toList) (Except.ok ["some snippet".toList])
      (fun _ => Except.error ("rate limit".toList))).2.2.1 _ _ rfl (by decide) rfl,
   (c8_price_lookup_soft_fail ("Netflix".toList) (Except.ok ["some snippet".toList])
      (fun _ => Except.ok ("no price found".toList))).2.2.2 _ _ rfl (by decide) rfl (by rfl)⟩

/-! ## Claim C10 -/

/-- Claim C10: asymmetric sentinels in the price lookup — the first
component is the null sentinel `None` exactly when the web search
returned an empty result list; every other non-success outcome carries
the numeric sentinel `0`. -/
theorem c10_null_sentinel_iff_empty_search (service : List Char)
    (searchOut : Except (List Char) (List (List Char)))
    (llm : List Char → Except (List Char) (List Char)) :
    (search_current_price service searchOut llm).1 = none ↔
      searchOut = Except.ok ([] : List (List Char)) := by
  constructor
  · intro h
    match searchOut with
    | Except.error e => simp [search_current_price] at h
    | Except.ok [] => rfl
    | Except.ok (a :: as) =>
      exfalso
      simp only [search_current_price, List.isEmpty_cons, Bool.false_eq_true,
        if_false] at h
      cases hllm : llm (pricePrompt service (joinNL (a :: as))) with
      | error e => simp [hllm] at h
      | ok resp =>
        simp only [hllm] at h
        cases hn : findFirstNumber (pyStrip resp) with
        | none => simp [hn] at h
        | some m => simp [hn] at h
  · intro h
    subst h
    rfl

/-! ## Claim C3 -/

/-- Claim C3 as stated — "a response with no `[`...`]` span yields an
empty sequence" — is false: a span-less response whose entire sanitized
text parses as JSON, such as the bare literal `true`, is returned as that
JSON value rather than as an empty list. -/
theorem c3_counterexample :
    ¬ (∀ resp : List Char, firstIdxOf '[' (fenceStripped resp) = none →
        parseLlmResponse resp = Json.arr []) := by
  intro h
  have ht := h ("true".toList) (by rfl)
  have hv : parseLlmResponse ("true".toList) = Json.bool true := by rfl
  rw [hv] at ht
  exact Json.noConfusion ht

/-- Claim C3 amended: the extraction call is total — an unreadable PDF, a
collaborator error, or a sanitized payload that fails to parse as JSON
each yield the empty sequence; but a sanitized payload that parses as any
JSON value (including a span-less response that is itself valid JSON,
e.g. a bare literal) is returned as that value, which need not be an
empty sequence. -/
theorem c3_soft_failure (pdf : Except (List Char) (List (List Char)))
    (llm : List Char → Except (List Char) (List Char)) :
    (∀ e, pdf = Except.error e → extract_transactions_from_pdf pdf llm = Json.arr []) ∧
    (∀ pages e, pdf = Except.ok pages → llm (extractPrompt pages) = Except.error e →
      extract_transactions_from_pdf pdf llm = Json.arr []) ∧
    (∀ pages resp, pdf = Except.ok pages → llm (extractPrompt pages) = Except.ok resp →
      jsonParse (sanitizeResponse resp) = none →
      extract_transactions_from_pdf pdf llm = Json.arr []) ∧
    (∀ pages resp v, pdf = Except.ok pages → llm (extractPrompt pages) = Except.ok resp →
      jsonParse (sanitizeResponse resp) = some v →
      extract_transactions_from_pdf pdf llm = v) := by
  refine ⟨?_, ?_, ?_, ?_⟩
  · intro e he
    subst he
    rfl
  · intro pages e hp hl
    subst hp
    simp only [extract_transactions_from_pdf, hl]
  · intro pages resp hp hl hj
    subst hp
    simp only [extract_transactions_from_pdf, hl, parseLlmResponse, hj, Option.getD_none]
  · intro pages resp v hp hl hj
    subst hp
    simp only [extract_transactions_from_pdf, hl, parseLlmResponse, hj, Option.getD_some]

/-- Witness for `c3_soft_failure` at each shape: unreadable PDF, LLM
error, unparseable response, parseable response. -/
theorem c3_witness :
    extract_transactions_from_pdf (Except.error ("bad pdf".toList))
      (fun _ => Except.ok ("[]".toList)) = Json.arr [] ∧
    extract_transactions_from_pdf (Except.ok ["page one".toList])
      (fun _ => Except.error ("timeout".toList)) = Json.arr [] ∧
    extract_transactions_from_pdf (Except.ok ["page one".toList])
      (fun _ => Except.ok ("Hello".toList)) = Json.arr [] ∧
    extract_transactions_from_pdf (Except.ok ["page one".toList])
      (fun _ => Except.ok ("[]".toList)) = Json.arr [] :=
  ⟨(c3_soft_failure (Except.error ("bad pdf".toList))
      (fun _ => Except.ok ("[]".toList))).1 _ rfl,
   (c3_soft_failure (Except.ok ["page one".toList])
      (fun _ => Except.error ("timeout".toList))).2.1 _ _ rfl rfl,
   (c3_soft_failure (Except.ok ["page one".toList])
      (fun _ => Except.ok ("Hello".toList))).2.2.1 _ _ rfl rfl (by rfl),
   (c3_soft_failure (Except.ok ["page one".toList])
      (fun _ => Except.ok ("[]".toList))).2.2.2 _ _ (Json.arr []) rfl rfl (by rfl)⟩

/-! ## Sanitization lemmas (towards claim C2) -/

/-- A prefix of a prefix is a prefix. -/
theorem leadsWith_append : ∀ (p q s : List Char),
    leadsWith (p ++ q) s = true → leadsWith p s = true := by
  intro p
  induction p with
  | nil => intro q s _; rfl
  | cons x p' ih =>
    intro q s h
    cases s with
    | nil => simp [leadsWith] at h
    | cons c cs =>
      simp only [List.cons_append, leadsWith, Bool.and_eq_true] at h ⊢
      exact ⟨h.1, ih q cs h.2⟩

/-- If an extension of a pattern occurs, so does the pattern itself. -/
theorem containsSub_append_true : ∀ (s p q : List Char),
    containsSub (p ++ q) s = true → containsSub p s = true := by
  intro s
  induction s with
  | nil =>
    intro p q h
    simp only [containsSub] at h ⊢
    exact leadsWith_append p q [] h
  | cons c cs ih =>
    intro p q h
    simp only [containsSub, Bool.or_eq_true] at h ⊢
    rcases h with h | h
    · exact Or.inl (leadsWith_append p q _ h)
    · exact Or.inr (ih p q h)

/-- If a pattern does not occur, neither does any extension of it. -/
theorem containsSub_append_false (s p q : List Char)
    (h : containsSub p s = false) : containsSub (p ++ q) s = false := by
  cases hc : containsSub (p ++ q) s with
  | false => rfl
  | true => rw [containsSub_append_true s p q hc] at h; cases h

/-- Replacing an absent pattern is the identity (fuel form). -/
theorem pyReplaceFuel_id : ∀ (f : Nat) (s pat rep : List Char),
    containsSub pat s = false → pyReplaceFuel pat rep f s = s := by
  intro f
  induction f with
  | zero => intro s _ _ _; rfl
  | succ f ih =>
    intro s pat rep h
    cases s with
    | nil => rfl
    | cons c cs =>
      have h1 : leadsWith pat (c :: cs) = false := by
        cases hl : leadsWith pat (c :: cs)
        · rfl
        · simp [containsSub, hl] at h
      have h2 : containsSub pat cs = false := by
        cases hc : containsSub pat cs
        · rfl
        · simp [containsSub, hc] at h
      simp only [pyReplaceFuel, h1, Bool.false_eq_true, and_false, if_false]
      rw [ih cs pat rep h2]

/-- Replacing an absent pattern is the identity. -/
theorem pyReplace_id (pat rep s : List Char) (h : containsSub pat s = false) :
    pyReplace pat rep s = s :=
  pyReplaceFuel_id s.length s pat rep h

/-- On a response without code-fence backticks, the fence stripping is
just `strip()`. -/
theorem fenceStripped_of_noFence (resp : List Char)
    (h : containsSub ("```".toList) resp = false) :
    fenceStripped resp = pyStrip resp := by
  have hj : containsSub ("```json".toList) resp = false := by
    have h2 := containsSub_append_false resp ("```".toList) ("json".toList) h
    rwa [show ("```".toList ++ "json".toList) = "```json".toList from by decide] at h2
  rw [fenceStripped, pyReplace_id _ _ _ hj, pyReplace_id _ _ _ h]

/-- `strip()` splits a string as whitespace, core, whitespace. -/
theorem pyStrip_decomp (s : List Char) :
    ∃ a b, s = a ++ pyStrip s ++ b ∧
      (∀ c ∈ a, isPyWs c = true) ∧ (∀ c ∈ b, isPyWs c = true) := by
  refine ⟨s.takeWhile isPyWs, ((s.dropWhile isPyWs).reverse.takeWhile isPyWs).reverse,
    ?_, ?_, ?_⟩
  · rw [List.append_assoc]
    conv_lhs => rw [← List.takeWhile_append_dropWhile (p := isPyWs) (l := s)]
    congr 1
    rw [pyStrip]
    conv_lhs =>
      rw [← List.reverse_reverse (s.dropWhile isPyWs),
        ← List.takeWhile_append_dropWhile (p := isPyWs) (l := (s.dropWhile isPyWs).reverse)]
    rw [List.reverse_append]
  · intro c hc
    exact List.mem_takeWhile_imp hc
  · intro c hc
    rw [List.mem_reverse] at hc
    exact List.mem_takeWhile_imp hc

/-- Whitespace is not `[`. -/
theorem ws_ne_lbracket (x : Char) (h : isPyWs x = true) : (x == '[') = false := by
  by_cases hx : x = '['
  · subst hx
    exact absurd h (by decide)
  · simp [hx]

/-- Whitespace is not `]`. -/
theorem ws_ne_rbracket (x : Char) (h : isPyWs x = true) : (x == ']') = false := by
  by_cases hx : x = ']'
  · subst hx
    exact absurd h (by decide)
  · simp [hx]

/-- `find` misses a character absent from the list. -/
theorem firstIdxOf_none (c : Char) : ∀ (l : List Char),
    (∀ x ∈ l, (x == c) = false) → firstIdxOf c l = none := by
  intro l
  induction l with
  | nil => intro _; rfl
  | cons x xs ih =>
    intro h
    simp only [firstIdxOf, h x (by simp), Bool.false_eq_true, if_false]
    rw [ih (fun y hy => h y (by simp [hy]))]
    rfl

/-- `find` skips a prefix free of the sought character (miss case). -/
theorem firstIdxOf_append_none (c : Char) : ∀ (a t : List Char),
    (∀ x ∈ a, (x == c) = false) → firstIdxOf c t = none →
    firstIdxOf c (a ++ t) = none := by
  intro a
  induction a with
  | nil => intro t _ h; simpa using h
  | cons x a' ih =>
    intro t hx h
    simp only [List.cons_append, List.append_eq, firstIdxOf, hx x (by simp),
      Bool.false_eq_true, if_false]
    rw [ih t (fun y hy => hx y (by simp [hy])) h]
    rfl

/-- `find` shifts by the length of a prefix free of the sought character. -/
theorem firstIdxOf_append_some (c : Char) : ∀ (a t : List Char) (k : Nat),
    (∀ x ∈ a, (x == c) = false) → firstIdxOf c t = some k →
    firstIdxOf c (a ++ t) = some (a.length + k) := by
  intro a
  induction a with
  | nil => intro t k _ h; simpa using h
  | cons x a' ih =>
    intro t k hx h
    simp only [List.cons_append, List.append_eq, firstIdxOf, hx x (by simp),
      Bool.false_eq_true, if_false]
    rw [ih t k (fun y hy => hx y (by simp [hy])) h]
    simp only [Option.map_some', List.length_cons]
    congr 1
    omega

/-- `find` ignores a suffix free of the sought character. -/
theorem firstIdxOf_append_right (c : Char) : ∀ (t b : List Char),
    (∀ x ∈ b, (x == c) = false) → firstIdxOf c (t ++ b) = firstIdxOf c t := by
  intro t
  induction t with
  | nil =>
    intro b hb
    simp only [List.nil_append]
    rw [firstIdxOf_none c b hb]
    rfl
  | cons x t' ih =>
    intro b hb
    simp only [List.cons_append, List.append_eq, firstIdxOf]
    rw [ih b hb]

/-- A found index is inside the list. -/
theorem firstIdxOf_lt_length (c : Char) : ∀ (t : List Char) (k : Nat),
    firstIdxOf c t = some k → k < t.length := by
  intro t
  induction t with
  | nil => intro k h; cases h
  | cons x t' ih =>
    intro k h
    simp only [firstIdxOf] at h
    by_cases hx : (x == c) = true
    · rw [if_pos hx] at h
      injection h with h'
      subst h'
      simp
    · rw [if_neg hx] at h
      cases hf : firstIdxOf c t' with
      | none => rw [hf] at h; cases h
      | some i =>
        rw [hf] at h
        simp only [Option.map_some'] at h
        injection h with h'
        have := ih i hf
        simp only [List.length_cons]
        omega

/-- `rfind` misses a character absent from the list. -/
theorem lastIdxOf_none_of (c : Char) : ∀ (l : List Char),
    (∀ x ∈ l, (x == c) = false) → lastIdxOf c l = none := by
  intro l
  induction l with
  | nil => intro _; rfl
  | cons x xs ih =>
    intro h
    simp only [lastIdxOf, ih (fun y hy => h y (by simp [hy])), h x (by simp),
      Bool.false_eq_true, if_false]

/-- `rfind` ignores a suffix free of the sought character. -/
theorem lastIdxOf_append_right (c : Char) : ∀ (t b : List Char),
    (∀ x ∈ b, (x == c) = false) → lastIdxOf c (t ++ b) = lastIdxOf c t := by
  intro t
  induction t with
  | nil =>
    intro b hb
    simp only [List.nil_append]
    rw [lastIdxOf_none_of c b hb]
    rfl
  | cons x t' ih =>
    intro b hb
    simp only [List.cons_append, List.append_eq, lastIdxOf, ih b hb]

/-- `rfind` skips a prefix free of the sought character (miss case). -/
theorem lastIdxOf_append_none (c : Char) : ∀ (a t : List Char),
    (∀ x ∈ a, (x == c) = false) → lastIdxOf c t = none →
    lastIdxOf c (a ++ t) = none := by
  intro a
  induction a with
  | nil => intro t _ h; simpa using h
  | cons x a' ih =>
    intro t hx h
    simp only [List.cons_append, List.append_eq, lastIdxOf,
      ih t (fun y hy => hx y (by simp [hy])) h, hx x (by simp),
      Bool.false_eq_true, if_false]

/-- `rfind` shifts by the length of a prefix free of the sought character. -/
theorem lastIdxOf_append_some (c : Char) : ∀ (a t : List Char) (k : Nat),
    (∀ x ∈ a, (x == c) = false) → lastIdxOf c t = some k →
    lastIdxOf c (a ++ t) = some (a.length + k) := by
  intro a
  induction a with
  | nil => intro t k _ h; simpa using h
  | cons x a' ih =>
    intro t k hx h
    simp only [List.cons_append, List.append_eq, lastIdxOf,
      ih t k (fun y hy => hx y (by simp [hy])) h, List.length_cons]
    congr 1
    omega

/-- A found index is inside the list. -/
theorem lastIdxOf_lt_length (c : Char) : ∀ (t : List Char) (k : Nat),
    lastIdxOf c t = some k → k < t.length := by
  intro t
  induction t with
  | nil => intro k h; cases h
  | cons x t' ih =>
    intro k h
    simp only [lastIdxOf] at h
    cases hl : lastIdxOf c t' with
    | some i =>
      rw [hl] at h
      injection h with h'
      have := ih i hl
      simp only [List.length_cons]
      omega
    | none =>
      rw [hl] at h
      by_cases hx : (x == c) = true
      · rw [if_pos hx] at h
        injection h with h'
        subst h'
        simp
      · rw [if_neg hx] at h
        cases h

/-- Dropping a prefix plus an offset drops the offset from the rest. -/
theorem drop_append_len : ∀ (a t : List Char) (n : Nat),
    (a ++ t).drop (a.length + n) = t.drop n := by
  intro a
  induction a with
  | nil => intro t n; simp
  | cons x a' ih =>
    intro t n
    simp only [List.cons_append, List.length_cons]
    rw [show a'.length + 1 + n = (a'.length + n) + 1 from by omega]
    simp only [List.drop_succ_cons]
    exact ih t n

/-- Slicing inside the middle component of a three-part concatenation. -/
theorem pySlice_append_middle (a t b : List Char) (s j : Nat)
    (hs : s ≤ t.length) (hj : j < t.length) :
    pySlice (a.length + s) (a.length + j + 1) (a ++ t ++ b) = pySlice s (j + 1) t := by
  have hlen : j + 1 - s ≤ (t.drop s).length := by
    rw [List.length_drop]
    omega
  rw [pySlice, pySlice, List.append_assoc]
  rw [show a.length + j + 1 - (a.length + s) = j + 1 - s from by omega]
  rw [drop_append_len a (t ++ b) s]
  rw [List.drop_append_of_le_length hs]
  rw [List.take_append_of_le_length hlen]

/-! ## Claim C2 -/

/-- Claim C2 as stated — "for every LLM response containing a single
valid JSON list, the extractor returns exactly that list" — is false:
the code strips every occurrence of the code-fence marker from the
response before slicing, including occurrences inside string content of
the list, so the response consisting exactly of the one-element list
whose string contains three backticks is returned as a different list. -/
theorem c2_counterexample :
    ¬ (∀ (resp lst : List Char) (l : List Json),
        jsonListSlices resp = [lst] →
        jsonParse lst = some (Json.arr l) →
        parseLlmResponse resp = Json.arr l) := by
  intro h
  have h1 : jsonListSlices ("[\"a```b\"]".toList) = ["[\"a```b\"]".toList] := by rfl
  have h2 : jsonParse ("[\"a```b\"]".toList) =
      some (Json.arr [Json.str ("a```b".toList)]) := by rfl
  have h3 := h _ _ _ h1 h2
  have h4 : parseLlmResponse ("[\"a```b\"]".toList) =
      Json.arr [Json.str ("ab".toList)] := by rfl
  rw [h4] at h3
  simp only [Json.arr.injEq, List.cons.injEq, Json.str.injEq, and_true] at h3
  exact absurd h3 (by decide)

/-- Claim C2 amended: for every response without code-fence backticks,
the payload is the slice of the response from its first `[` to its last
`]` inclusive (the fence stripping is the identity and the surrounding
`strip()` removes only whitespace outside that span), and when that
payload parses as a JSON list the extractor returns exactly that list.
Responses containing ``` have the markers stripped globally — even
inside list content — before slicing. -/
theorem c2_payload_parse (resp : List Char) (s j : Nat) (l : List Json)
    (hfence : containsSub ("```".toList) resp = false)
    (hfi : firstIdxOf '[' resp = some s)
    (hli : lastIdxOf ']' resp = some j)
    (hparse : jsonParse (pySlice s (j + 1) resp) = some (Json.arr l)) :
    parseLlmResponse resp = Json.arr l := by
  have hclean : fenceStripped resp = pyStrip resp := fenceStripped_of_noFence resp hfence
  obtain ⟨a, b, hdecomp, ha, hb⟩ := pyStrip_decomp resp
  set t := pyStrip resp with ht
  have ha1 : ∀ x ∈ a, (x == '[') = false := fun x hx => ws_ne_lbracket x (ha x hx)
  have hb1 : ∀ x ∈ b, (x == '[') = false := fun x hx => ws_ne_lbracket x (hb x hx)
  have ha2 : ∀ x ∈ a, (x == ']') = false := fun x hx => ws_ne_rbracket x (ha x hx)
  have hb2 : ∀ x ∈ b, (x == ']') = false := fun x hx => ws_ne_rbracket x (hb x hx)
  obtain ⟨s', hs', hseq⟩ : ∃ s', firstIdxOf '[' t = some s' ∧ s = a.length + s' := by
    cases hft : firstIdxOf '[' (t ++ b) with
    | none =>
      have hr : firstIdxOf '[' resp = none := by
        rw [hdecomp, List.append_assoc]
        exact firstIdxOf_append_none '[' a (t ++ b) ha1 hft
      rw [hr] at hfi
      cases hfi
    | some k =>
      have hr : firstIdxOf '[' resp = some (a.length + k) := by
        rw [hdecomp, List.append_assoc]
        exact firstIdxOf_append_some '[' a (t ++ b) k ha1 hft
      rw [hr] at hfi
      injection hfi with hk
      refine ⟨k, ?_, hk.symm⟩
      rw [← firstIdxOf_append_right '[' t b hb1]
      exact hft
  obtain ⟨j', hj', hjeq⟩ : ∃ j', lastIdxOf ']' t = some j' ∧ j = a.length + j' := by
    cases hlt : lastIdxOf ']' t with
    | none =>
      have hr : lastIdxOf ']' resp = none := by
        rw [hdecomp, lastIdxOf_append_right ']' (a ++ t) b hb2]
        exact lastIdxOf_append_none ']' a t ha2 hlt
      rw [hr] at hli
      cases hli
    | some k =>
      have hr : lastIdxOf ']' resp = some (a.length + k) := by
        rw [hdecomp, lastIdxOf_append_right ']' (a ++ t) b hb2]
        exact lastIdxOf_append_some ']' a t k ha2 hlt
      rw [hr] at hli
      injection hli with hk
      exact ⟨k, rfl, hk.symm⟩
  have hsl : s' < t.length := firstIdxOf_lt_length '[' t s' hs'
  have hjl : j' < t.length := lastIdxOf_lt_length ']' t j' hj'
  have hsl_eq : pySlice s (j + 1) resp = pySlice s' (j' + 1) t := by
    rw [hseq, hjeq, hdecomp]
    exact pySlice_append_middle a t b s' j' (le_of_lt hsl) hjl
  have hsan : sanitizeResponse resp = pySlice s' (j' + 1) t := by
    simp only [sanitizeResponse, hclean, hs', hj']
  have hparse2 : jsonParse (pySlice s' (j' + 1) t) = some (Json.arr l) := by
    rw [← hsl_eq]
    exact hparse
  rw [parseLlmResponse, hsan, hparse2]
  rfl

/-- Witness for `c2_payload_parse` at a fence-free response with prose
around the list. -/
theorem c2_witness :
    parseLlmResponse ("ok: [true]".toList) = Json.arr [Json.bool true] :=
  c2_payload_parse ("ok: [true]".toList) 4 9 [Json.bool true]
    (by decide) (by decide) (by decide) (by rfl)

end Subzap


